import Mathlib

/-!
Verification of the in-process reminder scheduler of the Life Tracker API
(`utils/scheduler.js` together with the parts of `utils/emailService.js` and
`models/habitModel.js` it calls at fire time).

The embedding is shallow: the JavaScript module-level `scheduledJobs` Map and
the set of `setTimeout` timers become an explicit `SchedulerState` record that
every operation threads; `setTimeout` callbacks become explicit fire
transitions parameterised by the callback outcome (normal return versus a
raised error, modelled with `Except`).  ECMAScript `Date` calendar arithmetic
(`setDate`, `setMonth`, `setHours`) is embedded over the proleptic Gregorian
calendar with local time taken to be UTC, using floor division exactly as the
ECMAScript `MakeDay` specification does.
-/

namespace LifeTracker

/-! ## ECMAScript calendar arithmetic

`Date` objects are instants; `getDate`/`setDate`/`setMonth` view them through
civil calendar fields.  We represent an instant at which calendar operations
happen (`new Date()` inside the scheduler) directly by its civil fields
(`JSDate` below) and embed the field-update methods through `makeDay`, the
ECMAScript MakeDay operation: months are 0-based and arbitrary out-of-range
month and day arguments roll over, e.g. day 32 of January is February 1 and
month 12 of 2025 is January 2026. -/

/-- Days from the epoch 1970-01-01 to January 1 of year `y`
(ECMAScript DayFromYear, proleptic Gregorian). -/
def dayFromYear (y : Int) : Int :=
  365 * (y - 1970) + (y - 1969) / 4 - (y - 1901) / 100 + (y - 1601) / 400

/-- Gregorian leap year test (ECMAScript DaysInYear = 366). -/
def isLeap (y : Int) : Bool :=
  (y % 4 == 0 && y % 100 != 0) || y % 400 == 0

/-- Days in the months preceding 0-based month `mn` (0..11) of a year with
leap flag `leap` (ECMAScript DayWithinYear table). -/
def daysBeforeMonth (leap : Bool) (mn : Int) : Int :=
  let base :=
    if mn ≤ 0 then 0
    else if mn = 1 then 31
    else if mn = 2 then 59
    else if mn = 3 then 90
    else if mn = 4 then 120
    else if mn = 5 then 151
    else if mn = 6 then 181
    else if mn = 7 then 212
    else if mn = 8 then 243
    else if mn = 9 then 273
    else if mn = 10 then 304
    else 334
  base + (if 2 ≤ mn ∧ leap then 1 else 0)

/-- Number of days in 0-based month `mn` (0..11) of year `y`. -/
def daysInMonthE (y mn : Int) : Int :=
  if mn = 1 then (if isLeap y then 29 else 28)
  else if mn = 3 ∨ mn = 5 ∨ mn = 8 ∨ mn = 10 then 30
  else 31

/-- ECMAScript MakeDay: the epoch day of year `y`, 0-based month `m`, day `d`,
with out-of-range `m` and `d` rolling over (floor division and floor modulus,
as the ECMAScript specification prescribes). -/
def makeDay (y m d : Int) : Int :=
  let ym := y + m / 12
  let mn := m % 12
  dayFromYear ym + daysBeforeMonth (isLeap ym) mn + d - 1

/-- Milliseconds per day. -/
def msPerDay : Int := 86400000

/-- Milliseconds denoting 09:00:00.000 within a day. -/
def nineAmMs : Int := 32400000

/-- ECMAScript `setHours(9, 0, 0, 0)` on a timestamp (local time = UTC):
keep the civil day, set the time of day to 09:00. -/
def jsSetHours9 (t : Int) : Int :=
  (t / msPerDay) * msPerDay + nineAmMs

/-- An instant viewed through its civil calendar fields: `year` is the full
year, `month` the 0-based month (0..11 when valid), `day` the 1-based
day-of-month, `msOfDay` the milliseconds since local midnight. -/
structure JSDate where
  year : Int
  month : Int
  day : Int
  msOfDay : Int
deriving Repr, DecidableEq

/-- The civil fields denote an actual calendar date and time of day. -/
def JSDate.Valid (dt : JSDate) : Prop :=
  0 ≤ dt.month ∧ dt.month ≤ 11 ∧
  1 ≤ dt.day ∧ dt.day ≤ daysInMonthE dt.year dt.month ∧
  0 ≤ dt.msOfDay ∧ dt.msOfDay < msPerDay

instance (dt : JSDate) : Decidable dt.Valid := by
  unfold JSDate.Valid; infer_instance

/-- Epoch day of the instant. -/
def JSDate.epochDay (dt : JSDate) : Int :=
  makeDay dt.year dt.month dt.day

/-- Epoch milliseconds of the instant (`Date.prototype.getTime`). -/
def JSDate.toMillis (dt : JSDate) : Int :=
  dt.epochDay * msPerDay + dt.msOfDay

/-! ## Job store data model (`scheduler.js`)

The payload objects the scheduler passes to callbacks carry the fields the
source ever reads: `userId`, `habitId`, `taskId`, `frequency`, `email`,
`name`, `recurring`.  Fields a given payload does not define in the source
(e.g. `taskId` on a habit payload) are `none`, mirroring `undefined`. -/

structure JobData where
  userId : String
  habitId : Option String
  taskId : Option String
  frequency : Option String
  email : String
  name : String
  recurring : Bool
deriving Repr, DecidableEq

/-- The record stored in the `scheduledJobs` Map (`jobInfo` in the source). -/
structure JobInfo where
  id : String
  scheduledFor : Int
  createdAt : Int
  data : JobData
  timerId : Nat
deriving Repr, DecidableEq

/-- A `setTimeout` timer.  `jobId` and `data` are the values captured by the
timeout closure; `fireAt` is the instant `now + delay`; `live` is true while
the timer has neither fired nor been cleared. -/
structure Timer where
  timerId : Nat
  jobId : String
  data : JobData
  fireAt : Int
  live : Bool
deriving Repr, DecidableEq

/-! JavaScript `Map` operations on an insertion-ordered association list. -/

/-- `Map.prototype.has`. -/
def mapHas (m : List (String × JobInfo)) (k : String) : Bool :=
  m.any (fun p => p.1 == k)

/-- `Map.prototype.get`. -/
def mapGet (m : List (String × JobInfo)) (k : String) : Option JobInfo :=
  (m.find? (fun p => p.1 == k)).map Prod.snd

/-- `Map.prototype.set`: replace in place when the key is present (keys are
unique in every store the operations build, so replacing the first occurrence
is replacing the occurrence), append at the end otherwise. -/
def mapSet (m : List (String × JobInfo)) (k : String) (v : JobInfo) :
    List (String × JobInfo) :=
  match m with
  | [] => [(k, v)]
  | p :: rest => if p.1 == k then (k, v) :: rest else p :: mapSet rest k v

/-- `Map.prototype.delete`: remove the entry with the key (the first match;
keys are unique in every store the operations build). -/
def mapDelete (m : List (String × JobInfo)) (k : String) :
    List (String × JobInfo) :=
  match m with
  | [] => []
  | p :: rest => if p.1 == k then rest else p :: mapDelete rest k

/-- The whole mutable state of the scheduler module: the `scheduledJobs` Map,
the set of timers ever created (cleared and fired ones stay with
`live = false`), the next fresh timer handle, and the `console.warn` /
`console.error` lines emitted (most recent first). -/
structure SchedulerState where
  scheduledJobs : List (String × JobInfo)
  timers : List Timer
  nextTimerId : Nat
  warningsLogged : List String
  errorsLogged : List String
deriving Repr, DecidableEq

/-- The state at module load: empty store, no timers. -/
def initState : SchedulerState :=
  { scheduledJobs := [], timers := [], nextTimerId := 0,
    warningsLogged := [], errorsLogged := [] }

/-- `clearTimeout`: deactivate the timer with the given handle. -/
def clearTimeoutT (timers : List Timer) (tid : Nat) : List Timer :=
  timers.map (fun t => if t.timerId == tid then { t with live := false } else t)

/-! ## Scheduler Core operations (`scheduler.js`) -/

/-- `scheduleJob(jobId, executeAt, callback, data)` at instant `now`:
computes `delay = executeAt - now`, clamps a negative delay to 1000 ms with a
warning, creates the timer, and stores the job record under `jobId`.
The callback itself is attached at fire time (see `fireTimer`). -/
def scheduleJob (now : Int) (jobId : String) (executeAt : Int)
    (data : JobData) (s : SchedulerState) : SchedulerState :=
  let delay0 := executeAt - now
  let delay := if delay0 < 0 then 1000 else delay0
  let warns :=
    if delay0 < 0 then ["Scheduled time is in the past. Using minimal delay."]
    else []
  let timer : Timer :=
    { timerId := s.nextTimerId, jobId := jobId, data := data,
      fireAt := now + delay, live := true }
  let jobInfo : JobInfo :=
    { id := jobId, scheduledFor := executeAt, createdAt := now,
      data := data, timerId := s.nextTimerId }
  { scheduledJobs := mapSet s.scheduledJobs jobId jobInfo,
    timers := timer :: s.timers,
    nextTimerId := s.nextTimerId + 1,
    warningsLogged := warns ++ s.warningsLogged,
    errorsLogged := s.errorsLogged }

/-- `cancelJob(jobId)`: when the id is absent, warn and return false; when
present, `clearTimeout` its timer, delete the store entry and return true. -/
def cancelJob (jobId : String) (s : SchedulerState) : SchedulerState × Bool :=
  match mapGet s.scheduledJobs jobId with
  | none =>
      ({ s with warningsLogged :=
          ("Job " ++ jobId ++ " not found in scheduler.") :: s.warningsLogged },
       false)
  | some job =>
      ({ s with
          timers := clearTimeoutT s.timers job.timerId,
          scheduledJobs := mapDelete s.scheduledJobs jobId },
       true)

/-- `cancelAllJobsForHabit(habitId)`: iterate over the store entries and
cancel each whose payload carries this habit id. -/
def cancelAllJobsForHabit (habitId : String) (s : SchedulerState) :
    SchedulerState :=
  s.scheduledJobs.foldl
    (fun acc p =>
      if p.2.data.habitId == some habitId then (cancelJob p.1 acc).1 else acc)
    s

/-- `cancelAllJobsForTask(taskId)`: iterate over the store entries and cancel
each whose payload carries this task id. -/
def cancelAllJobsForTask (taskId : String) (s : SchedulerState) :
    SchedulerState :=
  s.scheduledJobs.foldl
    (fun acc p =>
      if p.2.data.taskId == some taskId then (cancelJob p.1 acc).1 else acc)
    s

/-! ## Recurrence computation (`scheduleNextRecurrence`) -/

/-- The epoch day the `switch (frequency)` block of `scheduleNextRecurrence`
lands on, starting from the firing instant `now`: `setDate(getDate() + 1)`
for daily and for the default branch, `setDate(getDate() + 7)` for weekly,
`setMonth(getMonth() + 1)` for monthly. -/
def nextOccurrenceDay (now : JSDate) (frequency : Option String) : Int :=
  match frequency with
  | some "daily" => makeDay now.year now.month (now.day + 1)
  | some "weekly" => makeDay now.year now.month (now.day + 7)
  | some "monthly" => makeDay now.year (now.month + 1) now.day
  | _ => makeDay now.year now.month (now.day + 1)

/-- The timestamp `scheduleNextRecurrence` schedules: the `switch` result,
then `setHours(9, 0, 0, 0)`. -/
def nextOccurrenceMillis (now : JSDate) (frequency : Option String) : Int :=
  jsSetHours9 (nextOccurrenceDay now frequency * msPerDay + now.msOfDay)

/-- The template-literal job id `reminder_${habitId}_${date.getTime()}`;
an undefined habit id prints as the string `undefined`. -/
def reminderJobId (habitId : Option String) (t : Int) : String :=
  "reminder_" ++ (match habitId with | some h => h | none => "undefined")
    ++ "_" ++ toString t

/-- `scheduleNextRecurrence(data)` at firing instant `now`: compute the next
occurrence, build the reminder job id, and schedule `sendHabitReminderEmail`
with payload `{userId, habitId, frequency, email, name, recurring: true}`. -/
def scheduleNextRecurrence (now : JSDate) (data : JobData)
    (s : SchedulerState) : SchedulerState :=
  let nextMs := nextOccurrenceMillis now data.frequency
  scheduleJob now.toMillis (reminderJobId data.habitId nextMs) nextMs
    { userId := data.userId, habitId := data.habitId, taskId := none,
      frequency := data.frequency, email := data.email, name := data.name,
      recurring := true } s

/-! ## Firing a timer

The body of the `setTimeout` closure in `scheduleJob` is

  try \x7b await callback(data); scheduledJobs.delete(jobId);
        if (data.recurring) scheduleNextRecurrence(data); \x7d
  catch (error) \x7b console.error(...); \x7d

so the store deletion and the rescheduling are reached only when the callback
returns normally.  The callback is modelled as a function from the payload to
`Except String CbResult`: `Except.error` is a raised error, `Except.ok` a
normal return carrying the result object. -/

/-- The result object a reminder callback resolves with: the `success` and
`reason` fields of the source, plus whether a mail was handed to the
transport. -/
structure CbResult where
  success : Bool
  reason : Option String
  emailSent : Bool
deriving Repr, DecidableEq

/-- Fire the live timer with handle `tid` at instant `now`, the callback
behaving as `cb`.  A handle with no live timer fires nothing. -/
def fireTimer (now : JSDate) (cb : JobData → Except String CbResult)
    (tid : Nat) (s : SchedulerState) : SchedulerState :=
  match s.timers.find? (fun t => t.timerId == tid && t.live) with
  | none => s
  | some t =>
    let s1 : SchedulerState := { s with timers := clearTimeoutT s.timers tid }
    match cb t.data with
    | Except.ok _ =>
        let s2 : SchedulerState :=
          { s1 with scheduledJobs := mapDelete s1.scheduledJobs t.jobId }
        if t.data.recurring then scheduleNextRecurrence now t.data s2 else s2
    | Except.error e =>
        { s1 with errorsLogged :=
            ("Error executing scheduled job " ++ t.jobId ++ ": " ++ e)
              :: s1.errorsLogged }

/-! ## Fire-time callbacks (`emailService.js`, `models/habitModel.js`) -/

/-- The habit fields the fire-time path reads. -/
structure Habit where
  userId : String
  name : String
  frequency : Option String
  streak : Int
deriving Repr, DecidableEq

/-- `habitModel.getHabitById(id, userId)`: read `habits/${id}` and return it
only when it exists and belongs to the user. -/
def getHabitById (habits : List (String × Habit)) (id : String)
    (userId : String) : Option Habit :=
  match (habits.find? (fun p => p.1 == id)).map Prod.snd with
  | none => none
  | some h => if h.userId == userId then some h else none

/-- `sendHabitReminderEmail(data)`: re-fetch the habit; when it no longer
exists resolve with `{success: false, reason: habit_not_found}` without
sending; otherwise hand the reminder to the transport, rethrowing a transport
error.  `transport` models `transporter.sendMail` as the resulting message id
or a raised error. -/
def sendHabitReminderEmail (habits : List (String × Habit))
    (transport : Except String String) (data : JobData) :
    Except String CbResult :=
  match data.habitId.bind (fun hid => getHabitById habits hid data.userId) with
  | none =>
      Except.ok { success := false, reason := some "habit_not_found",
                  emailSent := false }
  | some _habit =>
      match transport with
      | Except.ok _mid =>
          Except.ok { success := true, reason := none, emailSent := true }
      | Except.error e => Except.error e

/-! ## Habit and task reminder flows (`scheduler.js`) -/

/-- `scheduleHabitReminder(habitId, habit, userId, email, name)` at instant
`now`: first occurrence is 09:00 on the next calendar day
(`setDate(getDate() + 1)` then `setHours(9, 0, 0, 0)`), job id
`reminder_${habitId}_${time}`, recurring payload. -/
def scheduleHabitReminder (now : JSDate) (habitId : String) (habit : Habit)
    (userId email name : String) (s : SchedulerState) : SchedulerState :=
  let tomorrowMs :=
    jsSetHours9 (makeDay now.year now.month (now.day + 1) * msPerDay
      + now.msOfDay)
  scheduleJob now.toMillis (reminderJobId (some habitId) tomorrowMs) tomorrowMs
    { userId := userId, habitId := some habitId, taskId := none,
      frequency := habit.frequency, email := email, name := name,
      recurring := true } s

/-- The task fields the scheduler reads.  `dueDate` is the parsed due
timestamp in epoch milliseconds, `none` when the task has no due date. -/
structure Task where
  dueDate : Option Int
  completed : Bool
  userId : String
  name : String
deriving Repr, DecidableEq

/-- Fifteen minutes in milliseconds. -/
def fifteenMinutesMs : Int := 15 * 60 * 1000

/-- `scheduleTaskDueReminder(taskId, task, userId, email, name)` at instant
`now`: return null when the task has no due date or is completed; compute
`reminderTime = dueDate - 15 minutes`; return null when that is not strictly
in the future; otherwise schedule a one-shot job with id
`task_due_${taskId}_${reminderTime}` and return the job id. -/
def scheduleTaskDueReminder (now : Int) (taskId : String) (task : Task)
    (userId email name : String) (s : SchedulerState) :
    SchedulerState × Option String :=
  match task.dueDate with
  | none => (s, none)
  | some dueDate =>
    if task.completed then (s, none)
    else
      let reminderTime := dueDate - fifteenMinutesMs
      if reminderTime ≤ now then (s, none)
      else
        let jobId := "task_due_" ++ taskId ++ "_" ++ toString reminderTime
        (scheduleJob now jobId reminderTime
          { userId := userId, habitId := none, taskId := some taskId,
            frequency := none, email := email, name := name,
            recurring := false } s,
         some jobId)

/-! ## Recovery Loader (`initializeScheduler`) -/

/-- A Firebase Auth user record: `email` and `displayName` may be absent. -/
structure UserRecord where
  email : Option String
  displayName : Option String
deriving Repr, DecidableEq

/-- The `userRecord.displayName || empty string` fallback. -/
def displayNameOrEmpty : Option String → String
  | none => ""
  | some n => n

/-- One iteration of the task loop of `initializeScheduler`: skip the task
when it has no due date, is completed, or its reminder time is not in the
future; look up the owning user (a lookup failure is caught and the task
skipped); when the user has a truthy (defined, nonempty) email, schedule the
due reminder. -/
def initTaskStep (now : Int) (getUser : String → Except String UserRecord)
    (acc : SchedulerState) (p : String × Task) : SchedulerState :=
  match p.2.dueDate with
  | none => acc
  | some dueDate =>
    if p.2.completed then acc
    else if dueDate - fifteenMinutesMs ≤ now then acc
    else
      match getUser p.2.userId with
      | Except.error _ => acc
      | Except.ok u =>
        match u.email with
        | none => acc
        | some userEmail =>
          if userEmail != "" then
            (scheduleTaskDueReminder now p.1 p.2 p.2.userId userEmail
              (displayNameOrEmpty u.displayName) acc).1
          else acc

/-- The task pass of `initializeScheduler`: fold the task step over every
persisted task. -/
def initTasksPass (now : Int) (tasks : List (String × Task))
    (getUser : String → Except String UserRecord) (s : SchedulerState) :
    SchedulerState :=
  tasks.foldl (initTaskStep now getUser) s

/-- One iteration of the habit loop of `initializeScheduler`: look up the
owning user (a lookup failure is caught and the habit skipped); when the user
has a truthy email, schedule the recurring habit reminder — unconditionally,
habits have no completion gate. -/
def initHabitStep (now : JSDate) (getUser : String → Except String UserRecord)
    (acc : SchedulerState) (p : String × Habit) : SchedulerState :=
  match getUser p.2.userId with
  | Except.error _ => acc
  | Except.ok u =>
    match u.email with
    | none => acc
    | some userEmail =>
      if userEmail != "" then
        scheduleHabitReminder now p.1 p.2 p.2.userId userEmail
          (displayNameOrEmpty u.displayName) acc
      else acc

/-- The habit pass of `initializeScheduler`: fold the habit step over every
persisted habit. -/
def initHabitsPass (now : JSDate) (habits : List (String × Habit))
    (getUser : String → Except String UserRecord) (s : SchedulerState) :
    SchedulerState :=
  habits.foldl (initHabitStep now getUser) s

/-- `initializeScheduler()`: read all persisted tasks and schedule due
reminders for the qualifying ones, then read all persisted habits and
schedule their recurring reminders. -/
def initializeScheduler (now : JSDate) (tasks : List (String × Task))
    (habits : List (String × Habit))
    (getUser : String → Except String UserRecord) : SchedulerState :=
  initHabitsPass now habits getUser
    (initTasksPass now.toMillis tasks getUser initState)

/-! ## The store-timer invariant and reachable states -/

/-- Every job record in the store points at a live timer registered for
exactly that job id. -/
def storeTimerLinked (s : SchedulerState) : Prop :=
  ∀ p ∈ s.scheduledJobs,
    ∃ t ∈ s.timers, t.timerId = p.2.timerId ∧ t.live = true ∧ t.jobId = p.1

instance (s : SchedulerState) : Decidable (storeTimerLinked s) := by
  unfold storeTimerLinked; infer_instance

/-- Every live timer has a store entry under its job id carrying its
handle. -/
def liveTimerLinked (s : SchedulerState) : Prop :=
  ∀ t ∈ s.timers, t.live = true →
    ∃ p ∈ s.scheduledJobs, p.1 = t.jobId ∧ p.2.timerId = t.timerId

instance (s : SchedulerState) : Decidable (liveTimerLinked s) := by
  unfold liveTimerLinked; infer_instance

/-- Structural well-formedness: store keys are distinct, timer handles are
distinct, and every handle is below the next fresh one. -/
def timersWellFormed (s : SchedulerState) : Prop :=
  (s.scheduledJobs.map Prod.fst).Nodup ∧
  (s.timers.map Timer.timerId).Nodup ∧
  ∀ t ∈ s.timers, t.timerId < s.nextTimerId

/-- The full coherence property carried through the induction. -/
def Coherent (s : SchedulerState) : Prop :=
  timersWellFormed s ∧ storeTimerLinked s ∧ liveTimerLinked s

/-- One scheduler transition in which nothing goes wrong: a schedule under a
job id not currently in the store, a cancel, or the firing of a timer whose
callback returns normally and whose recurrence id (when the payload is
recurring) is not already taken. -/
inductive OkStep : SchedulerState → SchedulerState → Prop where
  | schedule (now : Int) (jobId : String) (executeAt : Int) (data : JobData)
      (s : SchedulerState) (hfresh : mapHas s.scheduledJobs jobId = false) :
      OkStep s (scheduleJob now jobId executeAt data s)
  | cancel (jobId : String) (s : SchedulerState) :
      OkStep s (cancelJob jobId s).1
  | fire (now : JSDate) (cb : JobData → Except String CbResult) (tid : Nat)
      (s : SchedulerState)
      (hok : ∀ t ∈ s.timers, t.timerId = tid →
        ∃ r, cb t.data = Except.ok r)
      (hfresh : ∀ t ∈ s.timers, t.timerId = tid → t.data.recurring = true →
        mapHas (mapDelete s.scheduledJobs t.jobId)
          (reminderJobId t.data.habitId
            (nextOccurrenceMillis now t.data.frequency)) = false) :
      OkStep s (fireTimer now cb tid s)

/-- States reachable from module load through well-behaved transitions. -/
inductive ReachableOk : SchedulerState → Prop where
  | init : ReachableOk initState
  | step {s s2 : SchedulerState} :
      ReachableOk s → OkStep s s2 → ReachableOk s2

/-! ## Specification-side definition for the recurrence refinement -/

/-- Adding one calendar month in the conventional sense of the
specification phrase "monthly adds 1 calendar month": move to the next
month and clamp the day-of-month to the length of that month.  This
definition follows the words of the specification and is compared against
the computation of the source (`nextOccurrenceDay`). -/
def calendarAddOneMonthDay (y m d : Int) : Int :=
  makeDay y (m + 1) (min d (daysInMonthE (y + (m + 1) / 12) ((m + 1) % 12)))

/-! ## Qualification predicates for the Recovery Loader -/

/-- A task qualifies for a due reminder at instant `now`: it has a due date,
is not completed, and its reminder time is strictly in the future. -/
def taskQualifies (now : Int) (task : Task) : Prop :=
  ∃ due, task.dueDate = some due ∧ task.completed = false ∧
    now < due - fifteenMinutesMs

instance (now : Int) (task : Task) : Decidable (taskQualifies now task) :=
  match h : task.dueDate with
  | none => isFalse (by
      rintro ⟨due, hdue, _, _⟩
      rw [h] at hdue
      cases hdue)
  | some due => decidable_of_iff
      (task.completed = false ∧ now < due - fifteenMinutesMs)
      (by
        constructor
        · rintro ⟨hc, hf⟩
          exact ⟨due, h, hc, hf⟩
        · rintro ⟨d2, hd2, hc, hf⟩
          rw [h] at hd2
          injection hd2 with he
          subst he
          exact ⟨hc, hf⟩)

/-- Some store entry carries this task id in its payload. -/
def hasTaskJob (s : SchedulerState) (tid : String) : Prop :=
  ∃ p, p ∈ s.scheduledJobs ∧ p.2.data.taskId = some tid

instance (s : SchedulerState) (tid : String) : Decidable (hasTaskJob s tid) := by
  unfold hasTaskJob; infer_instance

/-! ## Concrete fixtures used by closed scenario theorems -/

/-- A recurring daily habit payload. -/
def habitPayload : JobData :=
  { userId := "u1", habitId := some "h1", taskId := none,
    frequency := some "daily", email := "u1@example.com", name := "User One",
    recurring := true }

/-- A one-shot task payload for task `t1`. -/
def taskPayload : JobData :=
  { userId := "u1", habitId := none, taskId := some "t1", frequency := none,
    email := "u1@example.com", name := "User One", recurring := false }

/-- A one-shot task payload for task `t2`. -/
def taskPayload2 : JobData :=
  { userId := "u2", habitId := none, taskId := some "t2", frequency := none,
    email := "u2@example.com", name := "User Two", recurring := false }

/-- 2025-01-31, 09:00 local: the firing instant of the calendar
counterexample. -/
def jan31 : JSDate := { year := 2025, month := 0, day := 31, msOfDay := nineAmMs }

/-- A store holding one job for task `t1`, one for task `t2` and one habit
job, built through the scheduling API. -/
def mixedState : SchedulerState :=
  scheduleJob 0 "habitJob" 9000 habitPayload
    (scheduleJob 0 "taskJob2" 8000 taskPayload2
      (scheduleJob 0 "taskJob1" 7000 taskPayload initState))

/-- A recurring job fired while its callback raises: schedule `job1`, then
fire timer 0 with a callback that throws. -/
def failedFireState : SchedulerState :=
  fireTimer jan31 (fun _ => Except.error "boom") 0
    (scheduleJob 0 "job1" 5000 habitPayload initState)

/-- The same failed-callback scenario under the job id `job2`, exhibiting the
store-timer divergence. -/
def divergedState : SchedulerState :=
  fireTimer jan31 (fun _ => Except.error "boom") 0
    (scheduleJob 0 "job2" 5000 habitPayload initState)

/-- `scheduleJob` called twice under the id `dup` while the first job is
still pending. -/
def dupState : SchedulerState :=
  scheduleJob 0 "dup" 8000 taskPayload2
    (scheduleJob 0 "dup" 5000 taskPayload initState)

/-- `scheduleJob` with `executeAt` equal to `now`: a zero delay, inside any
positive floor. -/
def zeroDelayState : SchedulerState :=
  scheduleJob 1000000 "job7" 1000000 taskPayload initState

/-- A persisted task whose reminder window is long past. -/
def pastTask : Task :=
  { dueDate := some 100, completed := false, userId := "u1", name := "P" }

/-- A persisted task due one hour after the `jan31` instant. -/
def futureTask : Task :=
  { dueDate := some (jan31.toMillis + 3600000), completed := false,
    userId := "u1", name := "F" }

/-- A user lookup that always succeeds with a contact email. -/
def fixtureGetUser : String → Except String UserRecord :=
  fun _ => Except.ok { email := some "u@x", displayName := some "N" }

/-- The persisted tasks of the recovery scenario: one past, one future. -/
def fixtureTasks : List (String × Task) :=
  [("tPast", pastTask), ("tFut", futureTask)]

/-! ## Lemmas about the Map operations -/

theorem mapHas_false_iff (m : List (String × JobInfo)) (k : String) :
    mapHas m k = false ↔ ∀ p ∈ m, p.1 ≠ k := by
  simp [mapHas, List.any_eq_true]

theorem mapHas_true_iff (m : List (String × JobInfo)) (k : String) :
    mapHas m k = true ↔ ∃ p ∈ m, p.1 = k := by
  simp [mapHas, List.any_eq_true]

theorem mapSet_of_fresh (m : List (String × JobInfo)) (k : String)
    (v : JobInfo) (h : mapHas m k = false) : mapSet m k v = m ++ [(k, v)] := by
  induction m with
  | nil => rfl
  | cons p rest ih =>
    rw [mapHas_false_iff] at h
    have hp : p.1 ≠ k := h p (List.mem_cons_self p rest)
    have hrest : mapHas rest k = false := by
      rw [mapHas_false_iff]
      exact fun q hq => h q (List.mem_cons_of_mem p hq)
    simp [mapSet, hp, ih hrest]

theorem mapGet_mapSet_self (m : List (String × JobInfo)) (k : String)
    (v : JobInfo) : mapGet (mapSet m k v) k = some v := by
  induction m with
  | nil => simp [mapSet, mapGet, List.find?]
  | cons p rest ih =>
    by_cases hp : p.1 = k
    · simp [mapSet, mapGet, hp, List.find?]
    · simp only [mapSet, mapGet] at ih ⊢
      simp [hp, List.find?, ih]

theorem mem_mapSet (m : List (String × JobInfo)) (k : String) (v : JobInfo)
    (p : String × JobInfo) (h : p ∈ mapSet m k v) : p ∈ m ∨ p = (k, v) := by
  induction m with
  | nil => simpa [mapSet] using h
  | cons q rest ih =>
    by_cases hq : q.1 = k
    · simp only [mapSet, hq, beq_self_eq_true, if_true] at h
      rcases List.mem_cons.mp h with h1 | h1
      · right; exact h1
      · left; exact List.mem_cons_of_mem q h1
    · simp only [mapSet, beq_eq_false_iff_ne.mpr hq, if_neg] at h
      rcases List.mem_cons.mp h with h1 | h1
      · left; exact h1 ▸ List.mem_cons_self q rest
      · rcases ih h1 with h2 | h2
        · left; exact List.mem_cons_of_mem q h2
        · right; exact h2

theorem mapGet_some_mem (m : List (String × JobInfo)) (k : String)
    (v : JobInfo) (h : mapGet m k = some v) : (k, v) ∈ m := by
  induction m with
  | nil => simp [mapGet, List.find?] at h
  | cons p rest ih =>
    obtain ⟨a, b⟩ := p
    by_cases hp : a = k
    · subst hp
      simp [mapGet, List.find?] at h
      subst h
      exact List.mem_cons_self _ _
    · simp only [mapGet, List.find?, beq_eq_false_iff_ne.mpr hp] at h
      exact List.mem_cons_of_mem _ (ih h)

theorem mapGet_none_iff (m : List (String × JobInfo)) (k : String) :
    mapGet m k = none ↔ mapHas m k = false := by
  rw [mapHas_false_iff]
  simp [mapGet, List.find?_eq_none]

theorem mapDelete_eq_filter (m : List (String × JobInfo)) (k : String)
    (hnd : (m.map Prod.fst).Nodup) :
    mapDelete m k = m.filter (fun p => !(p.1 == k)) := by
  induction m with
  | nil => rfl
  | cons p rest ih =>
    rcases List.nodup_cons.mp hnd with ⟨hp, hrest⟩
    by_cases hk : p.1 = k
    · have : rest.filter (fun q => !(q.1 == k)) = rest := by
        apply List.filter_eq_self.mpr
        intro q hq
        have : q.1 ≠ k := by
          intro hqk
          exact hp (hk ▸ hqk ▸ List.mem_map_of_mem Prod.fst hq)
        simpa using this
      simp [mapDelete, hk, List.filter, this]
    · simp [mapDelete, hk, List.filter, beq_eq_false_iff_ne.mpr hk, ih hrest]

theorem mapDelete_sublist (m : List (String × JobInfo)) (k : String) :
    (mapDelete m k).Sublist m := by
  induction m with
  | nil => simp [mapDelete]
  | cons p rest ih =>
    by_cases hk : p.1 = k
    · simp only [mapDelete, hk, beq_self_eq_true, if_true]
      exact List.sublist_cons_self p rest
    · simpa [mapDelete, hk] using List.Sublist.cons₂ p ih

theorem mapDelete_keys_nodup (m : List (String × JobInfo)) (k : String)
    (hnd : (m.map Prod.fst).Nodup) :
    ((mapDelete m k).map Prod.fst).Nodup :=
  List.Nodup.sublist (List.Sublist.map Prod.fst (mapDelete_sublist m k)) hnd

theorem mem_mapDelete_iff (m : List (String × JobInfo)) (k : String)
    (hnd : (m.map Prod.fst).Nodup) (p : String × JobInfo) :
    p ∈ mapDelete m k ↔ p ∈ m ∧ p.1 ≠ k := by
  rw [mapDelete_eq_filter m k hnd]
  simp [List.mem_filter]

theorem mapDelete_append_cons (done rest : List (String × JobInfo))
    (k : String) (v : JobInfo) (h : ∀ p ∈ done, p.1 ≠ k) :
    mapDelete (done ++ (k, v) :: rest) k = done ++ rest := by
  induction done with
  | nil => simp [mapDelete]
  | cons q dtail ih =>
    have hq : q.1 ≠ k := h q (List.mem_cons_self q dtail)
    have htail : ∀ p ∈ dtail, p.1 ≠ k :=
      fun p hp => h p (List.mem_cons_of_mem q hp)
    simp [mapDelete, hq, ih htail]

theorem key_unique {α : Type} (l : List (String × α))
    (hnd : (l.map Prod.fst).Nodup) {k : String} {a b : α}
    (ha : (k, a) ∈ l) (hb : (k, b) ∈ l) : a = b := by
  induction l with
  | nil => cases ha
  | cons q rest ih =>
    rcases List.nodup_cons.mp hnd with ⟨hq, hrest⟩
    rcases List.mem_cons.mp ha with h1 | h1 <;>
      rcases List.mem_cons.mp hb with h2 | h2
    · rw [← h2] at h1; exact congrArg Prod.snd h1
    · exfalso
      apply hq
      have : q.1 = k := (congrArg Prod.fst h1.symm)
      exact this ▸ List.mem_map_of_mem Prod.fst h2
    · exfalso
      apply hq
      have : q.1 = k := (congrArg Prod.fst h2.symm)
      exact this ▸ List.mem_map_of_mem Prod.fst h1
    · exact ih hrest h1 h2

theorem mapGet_append_cons (done rest : List (String × JobInfo)) (k : String)
    (v : JobInfo) (h : ∀ p ∈ done, p.1 ≠ k) :
    mapGet (done ++ (k, v) :: rest) k = some v := by
  induction done with
  | nil => simp [mapGet, List.find?]
  | cons q dt ih =>
    have hq : q.1 ≠ k := h q (List.mem_cons_self q dt)
    have ih2 := ih (fun p hp => h p (List.mem_cons_of_mem q hp))
    simp only [mapGet, List.find?, List.cons_append,
      beq_eq_false_iff_ne.mpr hq] at ih2 ⊢
    exact ih2

theorem mapHas_mapSet_self (m : List (String × JobInfo)) (k : String)
    (v : JobInfo) : mapHas (mapSet m k v) k = true := by
  by_cases hb : mapHas (mapSet m k v) k = true
  · exact hb
  · exfalso
    have hb2 : mapHas (mapSet m k v) k = false := by
      cases h : mapHas (mapSet m k v) k
      · rfl
      · exact absurd h hb
    have h0 := (mapGet_none_iff (mapSet m k v) k).mpr hb2
    rw [mapGet_mapSet_self] at h0
    exact Option.noConfusion h0

theorem clearTimeoutT_map_timerId (ts : List Timer) (tid : Nat) :
    (clearTimeoutT ts tid).map Timer.timerId = ts.map Timer.timerId := by
  induction ts with
  | nil => rfl
  | cons t rest ih =>
    by_cases h : t.timerId = tid <;> simp [clearTimeoutT, h] at ih ⊢ <;>
      exact ih

theorem timer_inj_of_nodup (ts : List Timer)
    (hnd : (ts.map Timer.timerId).Nodup) {a b : Timer}
    (ha : a ∈ ts) (hb : b ∈ ts) (h : a.timerId = b.timerId) : a = b := by
  induction ts with
  | nil => cases ha
  | cons t rest ih =>
    rcases List.nodup_cons.mp hnd with ⟨ht, hrest⟩
    rcases List.mem_cons.mp ha with h1 | h1 <;>
      rcases List.mem_cons.mp hb with h2 | h2
    · exact h1.trans h2.symm
    · exfalso; apply ht
      have heq : t.timerId = b.timerId := by rw [← h1]; exact h
      rw [heq]
      exact List.mem_map_of_mem Timer.timerId h2
    · exfalso; apply ht
      have heq : t.timerId = a.timerId := by rw [← h2]; exact h.symm
      rw [heq]
      exact List.mem_map_of_mem Timer.timerId h1
    · exact ih hrest h1 h2

/-! ## Closed scenario theorems -/

/-- C10: scheduling twice under the same job id while the first job is
pending replaces the store record (the surviving entry is the second one,
with the second timer handle) without cancelling the first timer, which
stays live with its original fire time; firing that superseded timer then
removes the surviving store entry for the id. -/
theorem duplicateScheduleLeavesStaleTimer :
    dupState.scheduledJobs =
      [("dup", { id := "dup", scheduledFor := 8000, createdAt := 0,
                 data := taskPayload2, timerId := 1 })]
  ∧ (∃ t ∈ dupState.timers,
      t.timerId = 0 ∧ t.live = true ∧ t.fireAt = 5000 ∧ t.jobId = "dup")
  ∧ (fireTimer jan31
      (fun _ => Except.ok { success := true, reason := none, emailSent := true })
      0 dupState).scheduledJobs = [] := by
  decide

/-- C1, counterexample: a recurring job whose callback raises is NOT removed
from the Job Store and NO next occurrence is scheduled — the store is exactly
what it was before the firing, the fired timer is the only timer ever
created, and the error is merely logged.  This contradicts the claim that
removal and rescheduling happen regardless of callback failure. -/
theorem fireErrorKeepsJobInStore :
    mapHas failedFireState.scheduledJobs "job1" = true
  ∧ failedFireState.scheduledJobs =
      (scheduleJob 0 "job1" 5000 habitPayload initState).scheduledJobs
  ∧ failedFireState.timers.length = 1
  ∧ failedFireState.errorsLogged.length = 1 := by
  decide

/-- C2, counterexample: after a firing whose callback raises, the store still
holds the job while no timer is live — a reachable state (one schedule, one
firing with a failing callback) in which the store and the timers have
diverged, refuting the if-and-only-if invariant as stated. -/
theorem storeTimerInvariantFailsOnError :
    divergedState.scheduledJobs.length = 1
  ∧ (∀ t ∈ divergedState.timers, t.live = false)
  ∧ ¬ storeTimerLinked divergedState := by
  decide

/-- C4, counterexample: fired on 2025-01-31, a monthly habit job is
rescheduled for epoch day 20150 = 2025-03-03 (ECMAScript setMonth overflow),
not for 2025-01-31 plus one calendar month, which is 2025-02-28 = epoch day
20147; so the monthly branch does not add one calendar month. -/
theorem monthlyIsNotCalendarMonthAddition :
    nextOccurrenceMillis jan31 (some "monthly") = 20150 * msPerDay + nineAmMs
  ∧ makeDay 2025 2 3 = 20150
  ∧ calendarAddOneMonthDay 2025 0 31 = 20147
  ∧ makeDay 2025 1 28 = 20147
  ∧ nextOccurrenceMillis jan31 (some "monthly")
      ≠ calendarAddOneMonthDay 2025 0 31 * msPerDay + nineAmMs := by
  decide

/-- C7, counterexample: an `executeAt` equal to `now` — in particular within
any minimal positive floor of the current instant — is not clamped and draws
no warning: the timer is created with the exact zero delay (fire time equal
to `now`), while the job is still registered.  This contradicts the claim
that such calls are clamped to a minimal positive delay with a warning. -/
theorem withinFloorNotClamped :
    zeroDelayState.timers.head? =
      some { timerId := 0, jobId := "job7", data := taskPayload,
             fireAt := 1000000, live := true }
  ∧ zeroDelayState.warningsLogged = []
  ∧ mapHas zeroDelayState.scheduledJobs "job7" = true := by
  decide

/-! ## Quantified claim theorems -/

/-- C3: `scheduleTaskDueReminder` registers a job whose fire time is exactly
`dueDate - 15` minutes precisely when the task has a due date, is not
completed and that time is strictly in the future (returning the job id, the
store entry scheduled for that time, and a live timer firing at that time);
in every other case — no due date, completed, or reminder time not in the
future — it returns null and leaves the state untouched. -/
theorem taskDueReminderSpec (now : Int) (taskId : String) (task : Task)
    (userId email name : String) (s : SchedulerState) :
    (∀ due, task.dueDate = some due → task.completed = false →
      now < due - fifteenMinutesMs →
        (scheduleTaskDueReminder now taskId task userId email name s).2
          = some ("task_due_" ++ taskId ++ "_" ++ toString (due - fifteenMinutesMs))
      ∧ (∃ info,
          mapGet (scheduleTaskDueReminder now taskId task userId email name
              s).1.scheduledJobs
            ("task_due_" ++ taskId ++ "_" ++ toString (due - fifteenMinutesMs))
            = some info
          ∧ info.scheduledFor = due - fifteenMinutesMs
          ∧ info.data.taskId = some taskId ∧ info.data.recurring = false)
      ∧ (∃ tmr,
          (scheduleTaskDueReminder now taskId task userId email name
              s).1.timers.head? = some tmr
          ∧ tmr.fireAt = due - fifteenMinutesMs ∧ tmr.live = true))
  ∧ ((task.dueDate = none ∨ task.completed = true ∨
        (∃ due, task.dueDate = some due ∧ due - fifteenMinutesMs ≤ now)) →
      scheduleTaskDueReminder now taskId task userId email name s = (s, none)) := by
  constructor
  · intro due hdue hcomp hfut
    have hnle : ¬ (due - fifteenMinutesMs ≤ now) := not_le.mpr hfut
    have hnneg : ¬ (due - fifteenMinutesMs - now < 0) := by omega
    have hred : scheduleTaskDueReminder now taskId task userId email name s
        = (scheduleJob now
            ("task_due_" ++ taskId ++ "_" ++ toString (due - fifteenMinutesMs))
            (due - fifteenMinutesMs)
            { userId := userId, habitId := none, taskId := some taskId,
              frequency := none, email := email, name := name,
              recurring := false } s,
           some ("task_due_" ++ taskId ++ "_"
              ++ toString (due - fifteenMinutesMs))) := by
      simp [scheduleTaskDueReminder, hdue, hcomp, hnle]
    rw [hred]
    simp only [scheduleJob, List.head?_cons]
    refine ⟨by simp, ⟨_, mapGet_mapSet_self _ _ _, rfl, rfl, rfl⟩,
      ⟨_, rfl, ?_, rfl⟩⟩
    rw [if_neg hnneg]
    show now + (due - fifteenMinutesMs - now) = due - fifteenMinutesMs
    omega
  · rintro (h | h | ⟨due, hdue, hle⟩)
    · simp [scheduleTaskDueReminder, h]
    · cases hdd : task.dueDate with
      | none => simp [scheduleTaskDueReminder, hdd]
      | some due => simp [scheduleTaskDueReminder, hdd, h]
    · by_cases hc : task.completed <;>
        simp [scheduleTaskDueReminder, hdue, hc, hle]

/-- C3, witness: a task due at 1 000 000 ms scheduled at instant 0 yields the
job id for reminder time 100 000 ms. -/
theorem taskDueReminderSpecWitness :
    (scheduleTaskDueReminder 0 "t1"
        { dueDate := some 1000000, completed := false, userId := "u1",
          name := "T" } "u1" "e" "n" initState).2
      = some ("task_due_" ++ "t1" ++ "_" ++ toString ((1000000 : Int) - fifteenMinutesMs)) :=
  ((taskDueReminderSpec 0 "t1"
    { dueDate := some 1000000, completed := false, userId := "u1", name := "T" }
    "u1" "e" "n" initState).1 1000000 rfl rfl (by decide)).1

/-- C5: when the job id is present, `cancelJob` returns true, removes exactly
that entry from the store and deactivates its timer, leaving every other
timer untouched; when absent it returns false and leaves the store and the
timers unchanged. -/
theorem cancelJobSpec (jobId : String) (s : SchedulerState)
    (hnd : (s.scheduledJobs.map Prod.fst).Nodup) :
    (mapGet s.scheduledJobs jobId = none →
        (cancelJob jobId s).2 = false
      ∧ (cancelJob jobId s).1.scheduledJobs = s.scheduledJobs
      ∧ (cancelJob jobId s).1.timers = s.timers)
  ∧ (∀ job, mapGet s.scheduledJobs jobId = some job →
        (cancelJob jobId s).2 = true
      ∧ (cancelJob jobId s).1.scheduledJobs
          = s.scheduledJobs.filter (fun p => !(p.1 == jobId))
      ∧ (∀ t ∈ (cancelJob jobId s).1.timers,
          t.timerId = job.timerId → t.live = false)
      ∧ (∀ t ∈ s.timers, t.timerId ≠ job.timerId →
          t ∈ (cancelJob jobId s).1.timers)) := by
  constructor
  · intro h
    exact ⟨by simp [cancelJob, h], by simp [cancelJob, h], by simp [cancelJob, h]⟩
  · intro job h
    refine ⟨by simp [cancelJob, h], ?_, ?_, ?_⟩
    · simp only [cancelJob, h]
      exact mapDelete_eq_filter _ _ hnd
    · intro t ht htid
      simp only [cancelJob, h, clearTimeoutT] at ht
      rcases List.mem_map.mp ht with ⟨u, hu, hut⟩
      by_cases hh : u.timerId = job.timerId
      · rw [← hut]
        simp [hh]
      · rw [← hut] at htid
        simp [hh] at htid
    · intro t ht hne
      simp only [cancelJob, h, clearTimeoutT]
      have heq : (if t.timerId == job.timerId then { t with live := false } else t) = t := by
        simp [hne]
      exact heq ▸ List.mem_map_of_mem _ ht

/-- C5, witness: cancelling the unknown id leaves the mixed store and timers
unchanged and returns false. -/
theorem cancelJobSpecWitness :
    (cancelJob "missing" mixedState).2 = false
  ∧ (cancelJob "missing" mixedState).1.scheduledJobs = mixedState.scheduledJobs
  ∧ (cancelJob "missing" mixedState).1.timers = mixedState.timers :=
  (cancelJobSpec "missing" mixedState (by decide)).1 (by decide)

/-- C7, amended: `scheduleJob` always registers the job; only a strictly past
`executeAt` is clamped — to a 1000 ms delay, with a warning — while an
`executeAt` at or after `now`, even within the one-second floor, keeps its
exact (possibly zero) delay and draws no warning. -/
theorem scheduleJobClampSpec (now : Int) (jobId : String) (executeAt : Int)
    (data : JobData) (s : SchedulerState) :
    mapHas (scheduleJob now jobId executeAt data s).scheduledJobs jobId = true
  ∧ (executeAt < now →
        (scheduleJob now jobId executeAt data s).timers.head? =
          some { timerId := s.nextTimerId, jobId := jobId, data := data,
                 fireAt := now + 1000, live := true }
      ∧ (scheduleJob now jobId executeAt data s).warningsLogged
          = "Scheduled time is in the past. Using minimal delay."
              :: s.warningsLogged)
  ∧ (now ≤ executeAt →
        (scheduleJob now jobId executeAt data s).timers.head? =
          some { timerId := s.nextTimerId, jobId := jobId, data := data,
                 fireAt := executeAt, live := true }
      ∧ (scheduleJob now jobId executeAt data s).warningsLogged
          = s.warningsLogged) := by
  refine ⟨?_, ?_, ?_⟩
  · simp only [scheduleJob]
    exact mapHas_mapSet_self _ _ _
  · intro h
    have hd : executeAt - now < 0 := by omega
    have e1 : (if executeAt - now < 0 then (1000 : Int) else executeAt - now)
        = 1000 := if_pos hd
    have e2 : (if executeAt - now < 0
          then ["Scheduled time is in the past. Using minimal delay."]
          else ([] : List String))
        = ["Scheduled time is in the past. Using minimal delay."] := if_pos hd
    constructor
    · simp only [scheduleJob, e1, List.head?_cons]
    · simp only [scheduleJob, e2, List.cons_append, List.nil_append]
  · intro h
    have hd : ¬ (executeAt - now < 0) := by omega
    have e1 : (if executeAt - now < 0 then (1000 : Int) else executeAt - now)
        = executeAt - now := if_neg hd
    have e2 : (if executeAt - now < 0
          then ["Scheduled time is in the past. Using minimal delay."]
          else ([] : List String)) = [] := if_neg hd
    have e3 : now + (executeAt - now) = executeAt := by omega
    constructor
    · simp only [scheduleJob, e1, e3, List.head?_cons]
    · simp only [scheduleJob, e2, List.nil_append]

/-- C7 (amended), witness: a strictly past `executeAt` is clamped to a
1000 ms delay with the warning logged. -/
theorem scheduleJobClampSpecWitness :
    (scheduleJob 5000 "w7" 0 taskPayload initState).timers.head? =
      some { timerId := 0, jobId := "w7", data := taskPayload,
             fireAt := 6000, live := true }
  ∧ (scheduleJob 5000 "w7" 0 taskPayload initState).warningsLogged
      = ["Scheduled time is in the past. Using minimal delay."] :=
  (scheduleJobClampSpec 5000 "w7" 0 taskPayload initState).2.1 (by decide)

/-- C1, amended: when a fired job's callback raises, the error is logged, but
the job is NOT removed from the Job Store and no next occurrence is
scheduled, whatever the recurring flag says: the store is unchanged and no
timer is created — removal and rescheduling happen only on callback
success. -/
theorem fireTimerErrorSpec (now : JSDate)
    (cb : JobData → Except String CbResult) (tid : Nat) (s : SchedulerState)
    (t : Timer) (e : String)
    (hfind : s.timers.find? (fun u => u.timerId == tid && u.live) = some t)
    (herr : cb t.data = Except.error e) :
    (fireTimer now cb tid s).scheduledJobs = s.scheduledJobs
  ∧ (fireTimer now cb tid s).errorsLogged
      = ("Error executing scheduled job " ++ t.jobId ++ ": " ++ e)
          :: s.errorsLogged
  ∧ (fireTimer now cb tid s).timers = clearTimeoutT s.timers tid
  ∧ (fireTimer now cb tid s).timers.length = s.timers.length := by
  refine ⟨?_, ?_, ?_, ?_⟩ <;>
    simp [fireTimer, hfind, herr, clearTimeoutT]

/-- C1 (amended), witness: a concrete recurring job fired with a raising
callback keeps the store unchanged, logs the error, and creates no timer. -/
theorem fireTimerErrorSpecWitness :
    (fireTimer jan31 (fun _ => Except.error "boom") 0
        (scheduleJob 0 "jw1" 5000 habitPayload initState)).scheduledJobs
      = (scheduleJob 0 "jw1" 5000 habitPayload initState).scheduledJobs
  ∧ (fireTimer jan31 (fun _ => Except.error "boom") 0
        (scheduleJob 0 "jw1" 5000 habitPayload initState)).errorsLogged
      = ("Error executing scheduled job " ++ "jw1" ++ ": " ++ "boom")
          :: (scheduleJob 0 "jw1" 5000 habitPayload initState).errorsLogged
  ∧ (fireTimer jan31 (fun _ => Except.error "boom") 0
        (scheduleJob 0 "jw1" 5000 habitPayload initState)).timers
      = clearTimeoutT (scheduleJob 0 "jw1" 5000 habitPayload initState).timers 0
  ∧ (fireTimer jan31 (fun _ => Except.error "boom") 0
        (scheduleJob 0 "jw1" 5000 habitPayload initState)).timers.length
      = (scheduleJob 0 "jw1" 5000 habitPayload initState).timers.length :=
  fireTimerErrorSpec jan31 (fun _ => Except.error "boom") 0
    (scheduleJob 0 "jw1" 5000 habitPayload initState)
    { timerId := 0, jobId := "jw1", data := habitPayload, fireAt := 5000,
      live := true } "boom" (by decide) rfl

/-- Invariant of the `cancelAllJobsForTask` iteration: starting from a state
whose store is the processed (already filtered) prefix followed by the
pending entries, folding the cancel step over the pending entries filters
them in place. -/
theorem cancelAllTask_go (tid : String) (pending : List (String × JobInfo)) :
    ∀ (acc : SchedulerState) (done : List (String × JobInfo)),
      acc.scheduledJobs = done ++ pending →
      ((done ++ pending).map Prod.fst).Nodup →
      (∀ p ∈ done, (p.2.data.taskId == some tid) = false) →
      (pending.foldl
        (fun acc p =>
          if p.2.data.taskId == some tid then (cancelJob p.1 acc).1 else acc)
        acc).scheduledJobs
      = done ++ pending.filter (fun p => !(p.2.data.taskId == some tid)) := by
  induction pending with
  | nil =>
    intro acc done hacc _ _
    simpa using hacc
  | cons q rest ih =>
    intro acc done hacc hnd hdone
    have hsplit : ((done ++ q :: rest).map Prod.fst)
        = done.map Prod.fst ++ q.1 :: rest.map Prod.fst := by simp
    have hnd2 := hnd
    rw [hsplit] at hnd2
    rcases List.nodup_append.mp hnd2 with ⟨hndDone, hndQR, hdisj⟩
    have hdq : ∀ p ∈ done, p.1 ≠ q.1 := by
      intro p hp he
      exact hdisj (List.mem_map_of_mem Prod.fst hp)
        (he ▸ List.mem_cons_self q.1 (rest.map Prod.fst))
    by_cases hq : (q.2.data.taskId == some tid) = true
    · have hget : mapGet acc.scheduledJobs q.1 = some q.2 := by
        rw [hacc]
        exact mapGet_append_cons done rest q.1 q.2 hdq
      have hstep : ((cancelJob q.1 acc).1).scheduledJobs = done ++ rest := by
        simp only [cancelJob, hget]
        rw [hacc]
        exact mapDelete_append_cons done rest q.1 q.2 hdq
      have hndNext : ((done ++ rest).map Prod.fst).Nodup := by
        have hsub : (done ++ rest).Sublist (done ++ q :: rest) :=
          List.Sublist.append_left (List.sublist_cons_self q rest) done
        exact List.Nodup.sublist (List.Sublist.map Prod.fst hsub) hnd
      have := ih ((cancelJob q.1 acc).1) done hstep hndNext hdone
      simp only [List.foldl, hq, if_true, List.filter]
      simpa [hq] using this
    · have hqf : (q.2.data.taskId == some tid) = false := by
        cases h : (q.2.data.taskId == some tid)
        · rfl
        · exact absurd h hq
      have haccNext : acc.scheduledJobs = (done ++ [q]) ++ rest := by
        rw [hacc]; simp
      have hndNext : (((done ++ [q]) ++ rest).map Prod.fst).Nodup := by
        simpa using hnd
      have hdoneNext : ∀ p ∈ done ++ [q],
          (p.2.data.taskId == some tid) = false := by
        intro p hp
        rcases List.mem_append.mp hp with h1 | h1
        · exact hdone p h1
        · rcases List.mem_singleton.mp h1 with rfl
          exact hqf
      have := ih acc (done ++ [q]) haccNext hndNext hdoneNext
      simp only [List.foldl, hqf, if_false, List.filter]
      simpa [hqf] using this

/-- C6: `cancelAllJobsForTask(taskId)` removes from the store exactly the
jobs whose payload carries that task id: the resulting store is the original
one with those entries filtered out, every other entry (other tasks, habit
jobs) surviving unchanged and in order. -/
theorem cancelAllForTaskSpec (tid : String) (s : SchedulerState)
    (hnd : (s.scheduledJobs.map Prod.fst).Nodup) :
    (cancelAllJobsForTask tid s).scheduledJobs
      = s.scheduledJobs.filter (fun p => !(p.2.data.taskId == some tid)) := by
  have := cancelAllTask_go tid s.scheduledJobs s [] (by simp)
    (by simpa using hnd) (by simp)
  simpa [cancelAllJobsForTask] using this

/-- C6, witness: in a store holding jobs for tasks `t1`, `t2` and a habit,
cancelling all jobs for `t1` filters out exactly the `t1` entry. -/
theorem cancelAllForTaskSpecWitness :
    (cancelAllJobsForTask "t1" mixedState).scheduledJobs
      = mixedState.scheduledJobs.filter
          (fun p => !(p.2.data.taskId == some "t1")) :=
  cancelAllForTaskSpec "t1" mixedState (by decide)

/-- MakeDay is linear in the day argument: moving the day-of-month by `k`
moves the epoch day by `k`. -/
theorem makeDay_add (y m d k : Int) :
    makeDay y m (d + k) = makeDay y m d + k := by
  simp only [makeDay]
  ring

/-- `setHours(9,0,0,0)` on an instant with a valid time-of-day keeps the day
and sets the time to 09:00. -/
theorem jsSetHours9_day (E r : Int) (h0 : 0 ≤ r) (h1 : r < msPerDay) :
    jsSetHours9 (E * msPerDay + r) = E * msPerDay + nineAmMs := by
  unfold jsSetHours9
  have hne : (msPerDay : Int) ≠ 0 := by norm_num [msPerDay]
  have hdiv : (E * msPerDay + r) / msPerDay = E := by
    rw [add_comm]
    rw [Int.add_mul_ediv_right r E hne]
    rw [Int.ediv_eq_zero_of_lt h0 h1]
    ring
  rw [hdiv]

/-- C4, amended: a recurring job fired at instant `now` schedules exactly one
new job, at the time given by the frequency table with the time of day set to
09:00 — daily adds 1 day, weekly adds 7 days, an unrecognized or missing
frequency is treated as daily, and monthly advances the 0-based month index
by one keeping the day-of-month (ECMAScript setMonth): that agrees with
adding one calendar month whenever the current day-of-month exists in the
next month, and otherwise overflows past its end. -/
theorem nextRecurrenceSpec (now : JSDate) (data : JobData)
    (s : SchedulerState) (h0 : 0 ≤ now.msOfDay) (h1 : now.msOfDay < msPerDay)
    (hfresh : mapHas s.scheduledJobs
      (reminderJobId data.habitId (nextOccurrenceMillis now data.frequency))
      = false) :
    (scheduleNextRecurrence now data s).scheduledJobs.length
        = s.scheduledJobs.length + 1
  ∧ (∃ info,
      mapGet (scheduleNextRecurrence now data s).scheduledJobs
        (reminderJobId data.habitId (nextOccurrenceMillis now data.frequency))
        = some info
      ∧ info.scheduledFor = nextOccurrenceMillis now data.frequency
      ∧ info.data.recurring = true ∧ info.data.habitId = data.habitId)
  ∧ (data.frequency = some "daily" →
      nextOccurrenceMillis now data.frequency
        = (now.epochDay + 1) * msPerDay + nineAmMs)
  ∧ (data.frequency = some "weekly" →
      nextOccurrenceMillis now data.frequency
        = (now.epochDay + 7) * msPerDay + nineAmMs)
  ∧ (data.frequency = some "monthly" →
      nextOccurrenceMillis now data.frequency
        = makeDay now.year (now.month + 1) now.day * msPerDay + nineAmMs
      ∧ (now.day ≤ daysInMonthE (now.year + (now.month + 1) / 12)
            ((now.month + 1) % 12) →
          makeDay now.year (now.month + 1) now.day
            = calendarAddOneMonthDay now.year now.month now.day))
  ∧ (∀ f, data.frequency = some f → f ≠ "daily" → f ≠ "weekly" →
      f ≠ "monthly" →
      nextOccurrenceMillis now data.frequency
        = (now.epochDay + 1) * msPerDay + nineAmMs)
  ∧ (data.frequency = none →
      nextOccurrenceMillis now data.frequency
        = (now.epochDay + 1) * msPerDay + nineAmMs) := by
  refine ⟨?_, ?_, ?_, ?_, ?_, ?_, ?_⟩
  · simp only [scheduleNextRecurrence, scheduleJob]
    rw [mapSet_of_fresh _ _ _ hfresh]
    simp
  · simp only [scheduleNextRecurrence, scheduleJob]
    exact ⟨_, mapGet_mapSet_self _ _ _, rfl, rfl, rfl⟩
  · intro h
    rw [h]
    have hred : nextOccurrenceDay now (some "daily")
        = makeDay now.year now.month (now.day + 1) := rfl
    simp only [nextOccurrenceMillis, hred, makeDay_add]
    exact jsSetHours9_day _ _ h0 h1
  · intro h
    rw [h]
    have hred : nextOccurrenceDay now (some "weekly")
        = makeDay now.year now.month (now.day + 7) := rfl
    simp only [nextOccurrenceMillis, hred, makeDay_add]
    exact jsSetHours9_day _ _ h0 h1
  · intro h
    rw [h]
    have hred : nextOccurrenceDay now (some "monthly")
        = makeDay now.year (now.month + 1) now.day := rfl
    constructor
    · simp only [nextOccurrenceMillis, hred]
      exact jsSetHours9_day _ _ h0 h1
    · intro hfit
      unfold calendarAddOneMonthDay
      rw [min_eq_left hfit]
  · intro f hf hd hw hm
    rw [hf]
    have hred : nextOccurrenceDay now (some f)
        = makeDay now.year now.month (now.day + 1) := by
      simp only [nextOccurrenceDay]
      split
      · rename_i heq; exact absurd (by injection heq) hd
      · rename_i heq; exact absurd (by injection heq) hw
      · rename_i heq; exact absurd (by injection heq) hm
      · rfl
    simp only [nextOccurrenceMillis, hred, makeDay_add]
    exact jsSetHours9_day _ _ h0 h1
  · intro h
    rw [h]
    have hred : nextOccurrenceDay now none
        = makeDay now.year now.month (now.day + 1) := rfl
    simp only [nextOccurrenceMillis, hred, makeDay_add]
    exact jsSetHours9_day _ _ h0 h1

/-- C4 (amended), witness: fired on 2025-01-31 09:00 with the daily payload,
the next occurrence is the next epoch day at 09:00, and the successor job is
registered. -/
theorem nextRecurrenceSpecWitness :
    nextOccurrenceMillis jan31 habitPayload.frequency
      = (jan31.epochDay + 1) * msPerDay + nineAmMs :=
  ((nextRecurrenceSpec jan31 habitPayload initState (by decide) (by decide)
    (by decide)).2.2.1) rfl

/-- C8: when a recurring habit job fires after its habit has been deleted,
the callback re-fetches the habit, finds it absent, sends no email and
resolves with a `habit_not_found` result — and the scheduler nevertheless
schedules a successor job for the next occurrence, because the rescheduling
is driven only by the recurring flag in the payload. -/
theorem habitFireAfterDeleteSpec (now : JSDate)
    (habits : List (String × Habit)) (transport : Except String String)
    (tid : Nat) (s : SchedulerState) (t : Timer)
    (hfind : s.timers.find? (fun u => u.timerId == tid && u.live) = some t)
    (habs : t.data.habitId.bind
      (fun hid => getHabitById habits hid t.data.userId) = none)
    (hrec : t.data.recurring = true) :
    sendHabitReminderEmail habits transport t.data
      = Except.ok { success := false, reason := some "habit_not_found",
                    emailSent := false }
  ∧ (∃ info,
      mapGet (fireTimer now (sendHabitReminderEmail habits transport) tid
          s).scheduledJobs
        (reminderJobId t.data.habitId (nextOccurrenceMillis now t.data.frequency))
        = some info
      ∧ info.scheduledFor = nextOccurrenceMillis now t.data.frequency
      ∧ info.data.recurring = true
      ∧ info.data.habitId = t.data.habitId) := by
  have hsend : sendHabitReminderEmail habits transport t.data
      = Except.ok { success := false, reason := some "habit_not_found",
                    emailSent := false } := by
    simp only [sendHabitReminderEmail, habs]
  refine ⟨hsend, ?_⟩
  simp only [fireTimer, hfind, hsend, hrec, if_true, scheduleNextRecurrence,
    scheduleJob]
  exact ⟨_, mapGet_mapSet_self _ _ _, rfl, rfl, rfl⟩

/-- C8, witness: firing the recurring habit job for the deleted habit `h1`
(empty habit table) yields the `habit_not_found` result with no email, yet a
successor job is in the store. -/
theorem habitFireAfterDeleteSpecWitness :
    sendHabitReminderEmail [] (Except.ok "mid") habitPayload
      = Except.ok { success := false, reason := some "habit_not_found",
                    emailSent := false }
  ∧ (∃ info,
      mapGet (fireTimer jan31 (sendHabitReminderEmail [] (Except.ok "mid")) 0
          (scheduleJob 0 "hw" 5000 habitPayload initState)).scheduledJobs
        (reminderJobId habitPayload.habitId
          (nextOccurrenceMillis jan31 habitPayload.frequency))
        = some info
      ∧ info.scheduledFor = nextOccurrenceMillis jan31 habitPayload.frequency
      ∧ info.data.recurring = true
      ∧ info.data.habitId = habitPayload.habitId) :=
  habitFireAfterDeleteSpec jan31 [] (Except.ok "mid") 0
    (scheduleJob 0 "hw" 5000 habitPayload initState)
    { timerId := 0, jobId := "hw", data := habitPayload, fireAt := 5000,
      live := true }
    (by decide) (by decide) rfl

/-! ## Recovery Loader lemmas -/

theorem mem_store_scheduleJob (now : Int) (jobId : String) (executeAt : Int)
    (data : JobData) (s : SchedulerState) (p : String × JobInfo)
    (h : p ∈ (scheduleJob now jobId executeAt data s).scheduledJobs) :
    p ∈ s.scheduledJobs ∨ p.2.data = data := by
  simp only [scheduleJob] at h
  rcases mem_mapSet _ _ _ _ h with h1 | h1
  · exact Or.inl h1
  · right
    rw [h1]

theorem mem_store_scheduleTaskDueReminder (now : Int) (taskId : String)
    (task : Task) (userId email name : String) (s : SchedulerState)
    (p : String × JobInfo)
    (h : p ∈ (scheduleTaskDueReminder now taskId task userId email name
        s).1.scheduledJobs) :
    p ∈ s.scheduledJobs
    ∨ (p.2.data.taskId = some taskId ∧ taskQualifies now task) := by
  rcases hdd : task.dueDate with _ | due
  · left
    simpa [scheduleTaskDueReminder, hdd] using h
  · by_cases hc : task.completed
    · left
      simpa [scheduleTaskDueReminder, hdd, hc] using h
    · by_cases hle : due - fifteenMinutesMs ≤ now
      · left
        simpa [scheduleTaskDueReminder, hdd, hc, hle] using h
      · have hred : (scheduleTaskDueReminder now taskId task userId email
              name s).1
            = scheduleJob now
                ("task_due_" ++ taskId ++ "_"
                  ++ toString (due - fifteenMinutesMs))
                (due - fifteenMinutesMs)
                { userId := userId, habitId := none, taskId := some taskId,
                  frequency := none, email := email, name := name,
                  recurring := false } s := by
          simp [scheduleTaskDueReminder, hdd, hc, hle]
        rw [hred] at h
        rcases mem_store_scheduleJob _ _ _ _ _ _ h with h1 | h1
        · exact Or.inl h1
        · right
          refine ⟨by rw [h1], due, hdd, by simpa using hc, by omega⟩

theorem mem_store_scheduleHabitReminder (now : JSDate) (habitId : String)
    (habit : Habit) (userId email name : String) (s : SchedulerState)
    (p : String × JobInfo)
    (h : p ∈ (scheduleHabitReminder now habitId habit userId email name
        s).scheduledJobs) :
    p ∈ s.scheduledJobs ∨ p.2.data.taskId = none := by
  simp only [scheduleHabitReminder] at h
  rcases mem_store_scheduleJob _ _ _ _ _ _ h with h1 | h1
  · exact Or.inl h1
  · right
    rw [h1]

theorem initTaskStep_mem (now : Int)
    (getUser : String → Except String UserRecord) (acc : SchedulerState)
    (q : String × Task) (p : String × JobInfo)
    (h : p ∈ (initTaskStep now getUser acc q).scheduledJobs) :
    p ∈ acc.scheduledJobs
    ∨ (p.2.data.taskId = some q.1 ∧ taskQualifies now q.2) := by
  rcases hdd : q.2.dueDate with _ | due
  · left
    simpa [initTaskStep, hdd] using h
  · by_cases hc : q.2.completed
    · left
      simpa [initTaskStep, hdd, hc] using h
    · by_cases hle : due - fifteenMinutesMs ≤ now
      · left
        simpa [initTaskStep, hdd, hc, hle] using h
      · rcases hu : getUser q.2.userId with e | u
        · left
          simpa [initTaskStep, hdd, hc, hle, hu] using h
        · rcases he : u.email with _ | userEmail
          · left
            simpa [initTaskStep, hdd, hc, hle, hu, he] using h
          · by_cases hne : userEmail = ""
            · left
              simpa [initTaskStep, hdd, hc, hle, hu, he, hne] using h
            · have h2 : p ∈ (scheduleTaskDueReminder now q.1 q.2 q.2.userId
                  userEmail (displayNameOrEmpty u.displayName)
                  acc).1.scheduledJobs := by
                simpa [initTaskStep, hdd, hc, hle, hu, he, hne] using h
              exact mem_store_scheduleTaskDueReminder _ _ _ _ _ _ _ _ h2

theorem initHabitStep_mem (now : JSDate)
    (getUser : String → Except String UserRecord) (acc : SchedulerState)
    (q : String × Habit) (p : String × JobInfo)
    (h : p ∈ (initHabitStep now getUser acc q).scheduledJobs) :
    p ∈ acc.scheduledJobs ∨ p.2.data.taskId = none := by
  rcases hu : getUser q.2.userId with e | u
  · left
    simpa [initHabitStep, hu] using h
  · rcases he : u.email with _ | userEmail
    · left
      simpa [initHabitStep, hu, he] using h
    · by_cases hne : userEmail = ""
      · left
        simpa [initHabitStep, hu, he, hne] using h
      · have h2 : p ∈ (scheduleHabitReminder now q.1 q.2 q.2.userId userEmail
            (displayNameOrEmpty u.displayName) acc).scheduledJobs := by
          simpa [initHabitStep, hu, he, hne] using h
        exact mem_store_scheduleHabitReminder _ _ _ _ _ _ _ _ h2

theorem initTasksPass_inv (now : Int) (tasks : List (String × Task))
    (getUser : String → Except String UserRecord) :
    ∀ (l : List (String × Task)) (acc : SchedulerState),
      (∀ x ∈ l, x ∈ tasks) →
      (∀ p ∈ acc.scheduledJobs, ∀ tid, p.2.data.taskId = some tid →
        ∃ task, (tid, task) ∈ tasks ∧ taskQualifies now task) →
      ∀ p ∈ (l.foldl (initTaskStep now getUser) acc).scheduledJobs,
        ∀ tid, p.2.data.taskId = some tid →
          ∃ task, (tid, task) ∈ tasks ∧ taskQualifies now task := by
  intro l
  induction l with
  | nil =>
    intro acc _ hinv
    simpa using hinv
  | cons q rest ih =>
    intro acc hsub hinv
    rw [List.foldl_cons]
    apply ih
    · intro x hx
      exact hsub x (List.mem_cons_of_mem q hx)
    · intro p hp tid hptid
      rcases initTaskStep_mem now getUser acc q p hp with h1 | ⟨h1, h2⟩
      · exact hinv p h1 tid hptid
      · rw [h1] at hptid
        injection hptid with he
        subst he
        exact ⟨q.2, hsub q (List.mem_cons_self q rest), h2⟩

theorem initHabitsPass_inv (now : JSDate) (tasks : List (String × Task))
    (nowMs : Int) (getUser : String → Except String UserRecord) :
    ∀ (l : List (String × Habit)) (acc : SchedulerState),
      (∀ p ∈ acc.scheduledJobs, ∀ tid, p.2.data.taskId = some tid →
        ∃ task, (tid, task) ∈ tasks ∧ taskQualifies nowMs task) →
      ∀ p ∈ (l.foldl (initHabitStep now getUser) acc).scheduledJobs,
        ∀ tid, p.2.data.taskId = some tid →
          ∃ task, (tid, task) ∈ tasks ∧ taskQualifies nowMs task := by
  intro l
  induction l with
  | nil =>
    intro acc hinv
    simpa using hinv
  | cons q rest ih =>
    intro acc hinv
    rw [List.foldl_cons]
    apply ih
    intro p hp tid hptid
    rcases initHabitStep_mem now getUser acc q p hp with h1 | h1
    · exact hinv p h1 tid hptid
    · rw [h1] at hptid
      cases hptid

/-- C9: `initializeScheduler` schedules a task-due job only for persisted
tasks that are not completed and whose reminder time (`dueDate` minus 15
minutes) is strictly in the future; a task with no due date, a completed
task, or one whose reminder window is past gets no job. -/
theorem initializeSchedulerSpec (now : JSDate) (tasks : List (String × Task))
    (habits : List (String × Habit))
    (getUser : String → Except String UserRecord)
    (hnd : (tasks.map Prod.fst).Nodup) :
    (∀ tid, hasTaskJob (initializeScheduler now tasks habits getUser) tid →
      ∃ task, (tid, task) ∈ tasks ∧ taskQualifies now.toMillis task)
  ∧ (∀ tid task, (tid, task) ∈ tasks → ¬ taskQualifies now.toMillis task →
      ¬ hasTaskJob (initializeScheduler now tasks habits getUser) tid) := by
  have hmain : ∀ tid,
      hasTaskJob (initializeScheduler now tasks habits getUser) tid →
      ∃ task, (tid, task) ∈ tasks ∧ taskQualifies now.toMillis task := by
    intro tid ⟨p, hp, hptid⟩
    have hbase : ∀ p2 ∈ initState.scheduledJobs, ∀ tid2,
        p2.2.data.taskId = some tid2 →
        ∃ task, (tid2, task) ∈ tasks ∧ taskQualifies now.toMillis task := by
      intro p2 hp2
      cases hp2
    have htasks := initTasksPass_inv now.toMillis tasks getUser tasks
      initState (fun x hx => hx) hbase
    have hhabits := initHabitsPass_inv now tasks now.toMillis getUser habits
      (initTasksPass now.toMillis tasks getUser initState) htasks
    exact hhabits p hp tid hptid
  refine ⟨hmain, ?_⟩
  intro tid task hmem hnq hjob
  rcases hmain tid hjob with ⟨task2, hmem2, hq2⟩
  have : task = task2 := key_unique tasks hnd hmem hmem2
  exact hnq (this ▸ hq2)

/-- C9, witness: with one past-window task and one future-window task
persisted, recovery schedules no job for the past one. -/
theorem initializeSchedulerSpecWitness :
    ¬ hasTaskJob (initializeScheduler jan31 fixtureTasks [] fixtureGetUser)
      "tPast" :=
  (initializeSchedulerSpec jan31 fixtureTasks [] fixtureGetUser
    (by decide)).2 "tPast" pastTask (by decide) (by decide)

/-! ## Preservation of the store-timer invariant -/

theorem coherent_initState : Coherent initState := by
  refine ⟨⟨?_, ?_, ?_⟩, ?_, ?_⟩ <;>
    simp [initState, storeTimerLinked, liveTimerLinked]

theorem coherent_scheduleJob (now : Int) (jobId : String) (executeAt : Int)
    (data : JobData) (s : SchedulerState) (hC : Coherent s)
    (hfresh : mapHas s.scheduledJobs jobId = false) :
    Coherent (scheduleJob now jobId executeAt data s) := by
  obtain ⟨⟨hkeys, htids, hbound⟩, hstl, hltl⟩ := hC
  have hnotin : ∀ p ∈ s.scheduledJobs, p.1 ≠ jobId :=
    (mapHas_false_iff _ _).mp hfresh
  have hset := mapSet_of_fresh s.scheduledJobs jobId
    { id := jobId, scheduledFor := executeAt, createdAt := now, data := data,
      timerId := s.nextTimerId } hfresh
  refine ⟨⟨?_, ?_, ?_⟩, ?_, ?_⟩
  · simp only [scheduleJob]
    rw [hset, List.map_append, List.nodup_append]
    refine ⟨hkeys, List.nodup_singleton _, ?_⟩
    intro a ha hb
    rcases List.mem_map.mp ha with ⟨p, hp, hpa⟩
    simp only [List.map_cons, List.map_nil, List.mem_singleton] at hb
    exact hnotin p hp (by rw [hpa, hb])
  · simp only [scheduleJob, List.map_cons]
    refine List.nodup_cons.mpr ⟨?_, htids⟩
    intro hmem
    rcases List.mem_map.mp hmem with ⟨u, hu, hui⟩
    exact absurd hui (Nat.ne_of_lt (hbound u hu))
  · intro t ht
    simp only [scheduleJob] at ht ⊢
    rcases List.mem_cons.mp ht with h1 | h1
    · rw [h1]
      exact Nat.lt_succ_self _
    · exact Nat.lt_succ_of_lt (hbound t h1)
  · intro p hp
    simp only [scheduleJob] at hp ⊢
    rw [hset] at hp
    rcases List.mem_append.mp hp with h1 | h1
    · rcases hstl p h1 with ⟨u, hu, h2, h3, h4⟩
      exact ⟨u, List.mem_cons_of_mem _ hu, h2, h3, h4⟩
    · rw [List.mem_singleton] at h1
      subst h1
      exact ⟨_, List.mem_cons_self _ _, rfl, rfl, rfl⟩
  · intro t ht hlive
    simp only [scheduleJob] at ht ⊢
    rcases List.mem_cons.mp ht with h1 | h1
    · subst h1
      refine ⟨(jobId,
        { id := jobId, scheduledFor := executeAt, createdAt := now,
          data := data, timerId := s.nextTimerId }), ?_, rfl, rfl⟩
      rw [hset]
      exact List.mem_append_right _ (List.mem_singleton.mpr rfl)
    · rcases hltl t h1 hlive with ⟨p, hp, hp1, hp2⟩
      refine ⟨p, ?_, hp1, hp2⟩
      rw [hset]
      exact List.mem_append_left _ hp

/-- Removing a store entry together with deactivating its timer preserves
coherence: the common effect of `cancelJob` and of a successful firing. -/
theorem coherent_removePair (s : SchedulerState) (hC : Coherent s)
    (k : String) (v : JobInfo) (hmem : (k, v) ∈ s.scheduledJobs) :
    Coherent { s with scheduledJobs := mapDelete s.scheduledJobs k,
                      timers := clearTimeoutT s.timers v.timerId } := by
  obtain ⟨⟨hkeys, htids, hbound⟩, hstl, hltl⟩ := hC
  refine ⟨⟨?_, ?_, ?_⟩, ?_, ?_⟩
  · exact mapDelete_keys_nodup _ _ hkeys
  · rw [clearTimeoutT_map_timerId]
    exact htids
  · intro t ht
    rcases List.mem_map.mp ht with ⟨u, hu, hut⟩
    have hid : t.timerId = u.timerId := by
      rw [← hut]
      by_cases h2 : u.timerId = v.timerId <;> simp [h2]
    rw [hid]
    exact hbound u hu
  · intro p hp
    rcases (mem_mapDelete_iff _ _ hkeys p).mp hp with ⟨hpm, hpk⟩
    rcases hstl p hpm with ⟨u, hu, huid, hulive, hujid⟩
    have hune : u.timerId ≠ v.timerId := by
      intro he
      rcases hstl (k, v) hmem with ⟨u0, hu0, hu0id, hu0live, hu0jid⟩
      have heq : u = u0 :=
        timer_inj_of_nodup s.timers htids hu hu0 (by rw [he, hu0id])
      apply hpk
      rw [← hujid, heq, hu0jid]
    have hkeep : (if u.timerId == v.timerId then { u with live := false }
        else u) = u := by simp [hune]
    refine ⟨u, ?_, huid, hulive, hujid⟩
    exact hkeep ▸ List.mem_map_of_mem _ hu
  · intro t2 ht2 h2live
    rcases List.mem_map.mp ht2 with ⟨u, hu, hut⟩
    by_cases he : u.timerId = v.timerId
    · rw [← hut] at h2live
      simp [he] at h2live
    · have h2u : t2 = u := by rw [← hut]; simp [he]
      subst h2u
      rcases hltl t2 hu h2live with ⟨p, hpmem, hp1, hp2⟩
      have hpne : p.1 ≠ k := by
        intro heq
        have hkp : (k, p.2) ∈ s.scheduledJobs := by
          rw [← heq]
          exact hpmem
        have hv : p.2 = v := key_unique s.scheduledJobs hkeys hkp hmem
        apply he
        rw [← hp2, hv]
      exact ⟨p, (mem_mapDelete_iff _ _ hkeys p).mpr ⟨hpmem, hpne⟩, hp1, hp2⟩

theorem coherent_cancelJob (jobId : String) (s : SchedulerState)
    (hC : Coherent s) : Coherent (cancelJob jobId s).1 := by
  rcases hget : mapGet s.scheduledJobs jobId with _ | job
  · simp only [cancelJob, hget]
    exact hC
  · simp only [cancelJob, hget]
    exact coherent_removePair s hC jobId job (mapGet_some_mem _ _ _ hget)

theorem coherent_fireTimer (now : JSDate)
    (cb : JobData → Except String CbResult) (tid : Nat) (s : SchedulerState)
    (hC : Coherent s)
    (hok : ∀ t ∈ s.timers, t.timerId = tid → ∃ r, cb t.data = Except.ok r)
    (hfresh : ∀ t ∈ s.timers, t.timerId = tid → t.data.recurring = true →
      mapHas (mapDelete s.scheduledJobs t.jobId)
        (reminderJobId t.data.habitId
          (nextOccurrenceMillis now t.data.frequency)) = false) :
    Coherent (fireTimer now cb tid s) := by
  rcases hfind : s.timers.find? (fun u => u.timerId == tid && u.live)
      with _ | t
  · simp only [fireTimer, hfind]
    exact hC
  · have htmem : t ∈ s.timers := List.mem_of_find?_eq_some hfind
    have hpred := List.find?_some hfind
    simp only [Bool.and_eq_true, beq_iff_eq] at hpred
    rcases hpred with ⟨htid, htlive⟩
    rcases hok t htmem htid with ⟨r, hcb⟩
    rcases hC.2.2 t htmem htlive with ⟨q, hqmem, hq1, hq2⟩
    have hmem2 : (t.jobId, q.2) ∈ s.scheduledJobs := by
      rw [← hq1]
      exact hqmem
    have hC2 : Coherent { s with
        scheduledJobs := mapDelete s.scheduledJobs t.jobId,
        timers := clearTimeoutT s.timers tid } := by
      have h0 := coherent_removePair s hC t.jobId q.2 hmem2
      rw [hq2, htid] at h0
      exact h0
    simp only [fireTimer, hfind, hcb]
    by_cases hrec : t.data.recurring = true
    · rw [if_pos hrec]
      simp only [scheduleNextRecurrence]
      exact coherent_scheduleJob _ _ _ _ _ hC2 (hfresh t htmem htid hrec)
    · rw [if_neg hrec]
      exact hC2

/-- One well-behaved transition preserves coherence. -/
theorem coherent_step {s s2 : SchedulerState} (hC : Coherent s) :
    OkStep s s2 → Coherent s2
  | OkStep.schedule now jobId executeAt data _ hfresh =>
      coherent_scheduleJob now jobId executeAt data _ hC hfresh
  | OkStep.cancel jobId _ => coherent_cancelJob jobId _ hC
  | OkStep.fire now cb tid _ hok hfresh =>
      coherent_fireTimer now cb tid _ hC hok hfresh

/-- Every state reachable through well-behaved transitions is coherent. -/
theorem coherent_of_reachable (s : SchedulerState) (h : ReachableOk s) :
    Coherent s := by
  induction h with
  | init => exact coherent_initState
  | step hr hstep ih => exact coherent_step ih hstep

/-- C2, amended: for every state reachable through schedules whose job id is
not already in the store, cancels, and firings whose callback returns
normally (with a fresh recurrence id when the payload is recurring), a job is
in the Job Store if and only if its underlying timer is live: every store
entry points at a live timer registered for its job id, and every live timer
has a store entry carrying its handle.  The equivalence fails on a firing
whose callback raises (the fired job stays in the store — see the
counterexample) and on a duplicate schedule under a pending id (the
superseded timer stays live without a store record of its handle). -/
theorem storeTimerInvariantSpec (s : SchedulerState) (h : ReachableOk s) :
    storeTimerLinked s ∧ liveTimerLinked s :=
  ⟨(coherent_of_reachable s h).2.1, (coherent_of_reachable s h).2.2⟩

/-- C2 (amended), witness: the three-job mixed state is reachable through
fresh schedules, and in it the store and the timers are linked both ways. -/
theorem storeTimerInvariantSpecWitness :
    storeTimerLinked mixedState ∧ liveTimerLinked mixedState :=
  storeTimerInvariantSpec mixedState
    (ReachableOk.step
      (ReachableOk.step
        (ReachableOk.step ReachableOk.init
          (OkStep.schedule 0 "taskJob1" 7000 taskPayload initState
            (by decide)))
        (OkStep.schedule 0 "taskJob2" 8000 taskPayload2
          (scheduleJob 0 "taskJob1" 7000 taskPayload initState) (by decide)))
      (OkStep.schedule 0 "habitJob" 9000 habitPayload
        (scheduleJob 0 "taskJob2" 8000 taskPayload2
          (scheduleJob 0 "taskJob1" 7000 taskPayload initState))
        (by decide)))

end LifeTracker
